import Mathlib

/-!
# Verification of the Reflexion feature-discovery loop

Shallow embedding, in Lean 4, of the core of the repository's Reflexion
loop (`featureVideos` / `trainFeatureModel` / `updateFeatures` /
`getWorstPredictions` / `reflexionStep` / `runReflexion` in the
predictions pipeline, `reportLogErrors` in its utils, and the scorer
batching loop `rankVideos`).

Modelling conventions:

* JavaScript numbers are modelled as `ℚ` (exact arithmetic; the claims
  under study are about control flow, ordering and list manipulation,
  not floating-point rounding).  `Math.exp` / `Math.log` cannot be
  represented inside `ℚ` and are threaded through as abstract functions
  `expQ`, `logQ`; no claim depends on their values.  Division by zero in
  `ℚ` yields `0` where JavaScript would yield `NaN`; both make the
  strict comparison used by the accept/reject decision false, and no
  claim touches an empty validation split.
* External collaborators (the MLR trainer from the
  `ml-regression-multivariate-linear` package, the LLM feature proposer
  `addFeature`, the LLM scorer `rankVideos`, and the `Math.random`
  shuffle) are oracles supplied through the `Oracles` structure; each
  fallible call returns `Except String _` mirroring thrown exceptions.
  `mlr.weights` (a column matrix `number[][]` in the source, always read
  through `w[0]`) is modelled as `List ℚ`.  The trained MLR stores one
  weight per input column followed by the intercept as the final entry,
  which is the layout `updateFeatures` in the source relies on.
* A JavaScript object used as a string-keyed score record
  (`v.features[key] || 0`, spread update `{...v.features, [k]: x}`) is
  modelled as an association list with `featLookup` / `featInsert`.
* File-system writes (`writeFileSync`, `mkdirSync`) and `console` output
  are side effects with no bearing on the returned values; they are
  omitted.
* `Math.floor(length * 0.8)` is modelled as `length * 4 / 5` in `ℕ`;
  the two agree for every array length arising here.
-/

/-- A named feature, as in `utils/types` (`iFeature`). -/
structure iFeature where
  name : String
  summary : String
  description : String
deriving DecidableEq, Repr

/-- A training video together with its per-feature scores
(`iFeaturedVideo` in `utils/types`; the fields of `iVideo` not read by
the Reflexion loop are omitted). -/
structure iFeaturedVideo where
  title : String
  views : ℚ
  recentViews : List ℚ
  features : List (String × ℚ)
deriving DecidableEq, Repr

/-- One worst-prediction record (`iPrediction` in `utils/types`). -/
structure iPrediction where
  title : String
  actual : ℚ
  predicted : ℚ
  diff : ℚ
  delta : ℚ
deriving DecidableEq, Repr

/-- One scorer reply row (`iRanking` in `2.Rank.ts`). -/
structure iRanking where
  title : String
  features : List (String × ℚ)
deriving DecidableEq, Repr

/-- The trained multivariate linear model, abstracted to what the loop
reads from it: the weight column and the prediction function. -/
structure MLRModel where
  weights : List ℚ
  predict : List ℚ → ℚ

/-- `record[key] || 0` on a string-keyed score object. -/
def featLookup (fs : List (String × ℚ)) (key : String) : ℚ :=
  match fs.find? (fun p => p.1 == key) with
  | some p => p.2
  | none => 0

/-- `{...record, [key]: val}`: update-or-add a score binding. -/
def featInsert (fs : List (String × ℚ)) (key : String) (val : ℚ) : List (String × ℚ) :=
  fs.filter (fun p => !(p.1 == key)) ++ [(key, val)]

/-- Whether a score record carries a binding for `key`. -/
def featHasKey (fs : List (String × ℚ)) (key : String) : Bool :=
  fs.any (fun p => p.1 == key)

/-- `rankings.find(r => r.title === title)?.features[key] || 0`. -/
def rankLookup (rankings : List iRanking) (title : String) (key : String) : ℚ :=
  match rankings.find? (fun r => r.title == title) with
  | some r => featLookup r.features key
  | none => 0

/-- The evaluation report built by `reportLogErrors` (`iResults` in the
utils; the `mlr` field of stringified weights is modelled as the weight
list itself). -/
structure iResults where
  totalLogError : ℚ
  totalViewsError : ℚ
  averageLogError : ℚ
  averageViewsError : ℚ
  typicalFactor : ℚ
  averagePredictedViews : ℚ
  averageActualViews : ℚ
  videoCount : ℕ
  mlrWeights : Option (List ℚ)
deriving DecidableEq, Repr

/-- `reportLogErrors(predLog, actualLog, mlr?)` from the utils: throws on
a length mismatch, otherwise accumulates absolute errors in log scale and
in the exponentiated scale and returns the averages. -/
def reportLogErrors (expQ : ℚ → ℚ) (predLog actualLog : List ℚ)
    (mlr : Option MLRModel) : Except String iResults :=
  if predLog.length ≠ actualLog.length then
    .error "Length mismatch"
  else
    let n := predLog.length
    let pairs := predLog.zip actualLog
    let sumAbsLogError := (pairs.map (fun pa => |pa.1 - pa.2|)).sum
    let sumAbsViewsError := (pairs.map (fun pa => |expQ pa.1 - expQ pa.2|)).sum
    let sumPredViews := (predLog.map expQ).sum
    let sumActualViews := (actualLog.map expQ).sum
    let avgLogError := sumAbsLogError / (n : ℚ)
    let avgViewsError := sumAbsViewsError / (n : ℚ)
    .ok { totalLogError := sumAbsLogError
          totalViewsError := sumAbsViewsError
          averageLogError := avgLogError
          averageViewsError := avgViewsError
          typicalFactor := expQ avgLogError
          averagePredictedViews := sumPredViews / (n : ℚ)
          averageActualViews := sumActualViews / (n : ℚ)
          videoCount := n
          mlrWeights := mlr.map (fun m => m.weights) }

/-- Mean absolute residual in the model's native (log) scale; the value
`reportLogErrors` returns as `averageLogError` when the lengths agree. -/
def meanAbsLogError (predLog actualLog : List ℚ) : ℚ :=
  ((predLog.zip actualLog).map (fun pa => |pa.1 - pa.2|)).sum / (predLog.length : ℚ)

/-- The external collaborators of the loop, as typed oracles. -/
structure Oracles where
  /-- the `[...videos].sort(() => Math.random() - 0.5)` shuffle -/
  shuffle : List iFeaturedVideo → List iFeaturedVideo
  /-- `new MLR(X, Y)` from `ml-regression-multivariate-linear` -/
  trainMLR : List (List ℚ) → List ℚ → Except String MLRModel
  /-- the feature proposer `addFeature(features, predictions, rejected)` -/
  addFeature : List iFeature → List iPrediction → List iFeature → Except String iFeature
  /-- the scorer `rankVideos(videos, features)` -/
  rankVideos : List iFeaturedVideo → List iFeature → Except String (List iRanking)
  /-- `Math.exp` -/
  expQ : ℚ → ℚ
  /-- `Math.log` -/
  logQ : ℚ → ℚ

/-- The design row of one video: recent-view covariates followed by the
feature scores in feature order (`trainFeatureModel`'s `X`). -/
def buildX (features : List iFeature) (videos : List iFeaturedVideo) : List (List ℚ) :=
  videos.map (fun v => v.recentViews ++ features.map (fun f => featLookup v.features f.name))

/-- The targets `Y`: `Math.log(v.views + 1)` per video. -/
def buildY (logQ : ℚ → ℚ) (videos : List iFeaturedVideo) : List ℚ :=
  videos.map (fun v => logQ (v.views + 1))

/-- `trainFeatureModel(features, videos)`: builds `X`, `Y` and trains. -/
def trainFeatureModel (o : Oracles) (features : List iFeature)
    (videos : List iFeaturedVideo) : Except String (MLRModel × List (List ℚ) × List ℚ) := do
  let X := buildX features videos
  let Y := buildY o.logQ videos
  let mlr ← o.trainMLR X Y
  return (mlr, X, Y)

/-- The index computed by
`featuresValue.reduce((minIdx, curr, idx, arr) => curr.importance < arr[minIdx].importance ? idx : minIdx, 0)`:
the first position of the minimum. -/
def leastIdx (imps : List ℚ) : ℕ :=
  (List.range imps.length).foldl
    (fun minIdx idx => if imps.getD idx 0 < imps.getD minIdx 0 then idx else minIdx) 0

/-- Stand-in for the `undefined` a JavaScript out-of-bounds index read
would produce; never reached under the hypotheses of the theorems. -/
def defaultFeature : iFeature := { name := "", summary := "", description := "" }

/-- `updateFeatures(features, mlr)`: drops the last weight (the
intercept), takes `weights.slice(4, length - 1)`, drops the head of that
slice (destructuring `[_, ...featureCoefficients]`), checks the length
against the feature list, and evicts the feature with the smallest
absolute coefficient (first minimum wins). -/
def updateFeatures (features : List iFeature) (weights : List ℚ) :
    Except String (List iFeature × iFeature) :=
  let sliced := (weights.take (weights.length - 1)).drop 4
  let featureCoefficients := sliced.drop 1
  if featureCoefficients.length ≠ features.length then
    .error "Feature length mismatch"
  else
    let importances := featureCoefficients.map (fun w => |w|)
    let leastFeatureIdx := leastIdx importances
    .ok (features.eraseIdx leastFeatureIdx, features.getD leastFeatureIdx defaultFeature)

/-- `diffs.slice().sort((a, b) => b - a)`: descending sort. -/
def sortDesc (l : List ℚ) : List ℚ :=
  l.insertionSort (fun a b => a ≥ b)

/-- `diffs.indexOf(d)`: index of the first occurrence. -/
def idxOf (l : List ℚ) (a : ℚ) : ℕ :=
  List.indexOf a l

/-- Stand-in for a JavaScript out-of-bounds video read; never reached. -/
def defaultVideo : iFeaturedVideo := { title := "", views := 0, recentViews := [], features := [] }

/-- `getWorstPredictions(videos, mlr, X, Y)`: takes the 20 largest
absolute log-scale residuals (descending), recovers indices with
`indexOf`, and builds the report rows. -/
def getWorstPredictions (expQ : ℚ → ℚ) (videos : List iFeaturedVideo) (mlr : MLRModel)
    (X : List (List ℚ)) (Y : List ℚ) : List iPrediction :=
  let predictions := X.map mlr.predict
  let diffs := predictions.zipWith (fun p y => |p - y|) Y
  let sortedDiffs := sortDesc diffs
  let worstDiffs := sortedDiffs.take 20
  let worstIndices := worstDiffs.map (fun d => idxOf diffs d)
  worstIndices.map (fun idx =>
    { title := (videos.getD idx defaultVideo).title
      actual := expQ (Y.getD idx 0) - 1
      predicted := expQ (predictions.getD idx 0) - 1
      diff := |expQ (predictions.getD idx 0) - expQ (Y.getD idx 0)|
      delta := predictions.getD idx 0 - Y.getD idx 0 })

/-- Everything `reflexionStep` returns, together with the intermediate
values it computed (kept as fields so the specification can speak about
them; the source returns the first six and writes the rest to disk). -/
structure StepResult where
  previousModelResults : iResults
  newModelResults : iResults
  features : List iFeature
  videos : List iFeaturedVideo
  failedFeature : Option iFeature
  newFeature : iFeature
  bestFeatures : List iFeature
  worstFeature : iFeature
  worstPredictions : List iPrediction
  proposerRejectedArg : List iFeature
  trainingSplit : List iFeaturedVideo
  validationSplit : List iFeaturedVideo
  trainingScored : List iFeaturedVideo
  validationScored : List iFeaturedVideo
  previousPredictions : List ℚ
  newPredictions : List ℚ
  validationY : List ℚ
deriving DecidableEq, Repr

/-- `reflexionStep({features, videos, failedFeatures, ...})`: one full
iteration — shuffle and split 80/20, train, evict the least important
feature, analyse worst residuals, extend the rejection list with the
about-to-be-dropped feature (when not already present by name), propose,
score the candidate on both splits, retrain, and evaluate both models on
the validation split. -/
def reflexionStep (o : Oracles) (features : List iFeature) (videos : List iFeaturedVideo)
    (failedFeatures : List iFeature) : Except String StepResult := do
  let shuffledData := o.shuffle videos
  let trainingSize := shuffledData.length * 4 / 5
  let training := shuffledData.take trainingSize
  let validation := shuffledData.drop trainingSize
  let (mlr, X, Y) ← trainFeatureModel o features training
  let (bestFeatures, worstFeature) ← updateFeatures features mlr.weights
  let worstPredictions := getWorstPredictions o.expQ training mlr X Y
  let hasWorstFeature := failedFeatures.any (fun f => f.name == worstFeature.name)
  let fullFailedFeatures :=
    if hasWorstFeature then failedFeatures else failedFeatures ++ [worstFeature]
  let newFeature ← o.addFeature bestFeatures worstPredictions fullFailedFeatures
  let newRankings ← o.rankVideos training [newFeature]
  let updatedFeatures := bestFeatures ++ [newFeature]
  let newVideos := training.map (fun v =>
    { v with features :=
        featInsert v.features newFeature.name (rankLookup newRankings v.title newFeature.name) })
  let trained ← trainFeatureModel o updatedFeatures newVideos
  let newModel := trained.1
  let validationY := validation.map (fun v => o.logQ (v.views + 1))
  let previousModelX := buildX features validation
  let previousModelPredictions := previousModelX.map mlr.predict
  let previousModelResults ← reportLogErrors o.expQ previousModelPredictions validationY (some mlr)
  let validationRankings ← o.rankVideos validation [newFeature]
  let validationVideos := validation.map (fun v =>
    { v with features :=
        featInsert v.features newFeature.name (rankLookup validationRankings v.title newFeature.name) })
  let newModelX := buildX updatedFeatures validationVideos
  let newModelPredictions := newModelX.map newModel.predict
  let newModelResults ← reportLogErrors o.expQ newModelPredictions validationY (some newModel)
  let failedFeature := features.find? (fun f => !(updatedFeatures.any (fun uf => uf.name == f.name)))
  return { previousModelResults, newModelResults
           features := updatedFeatures
           videos := newVideos ++ validationVideos
           failedFeature, newFeature, bestFeatures, worstFeature, worstPredictions
           proposerRejectedArg := fullFailedFeatures
           trainingSplit := training
           validationSplit := validation
           trainingScored := newVideos
           validationScored := validationVideos
           previousPredictions := previousModelPredictions
           newPredictions := newModelPredictions
           validationY }

/-- The Controller's mutable state across iterations of `runReflexion`:
the active features, the rejection history, and the featured-video
store. -/
structure RState where
  features : List iFeature
  failedFeatures : List iFeature
  featuredVideos : List iFeaturedVideo
deriving DecidableEq, Repr

/-- One pass of the `for` loop body of `runReflexion`: run the step
inside `try`; on an exception leave every piece of state unchanged; on
success replace the video store, then accept the candidate set exactly
when the new model's validation `averageLogError` is strictly smaller,
remembering the evicted feature on accept and the failed newcomer on
reject.  (When the inner `find` missed, the source pushes `undefined`
onto the history; `Option.toList` models that absent value as pushing
nothing — the case is unreachable under the theorems' hypotheses.) -/
def runIteration (o : Oracles) (s : RState) : RState :=
  match reflexionStep o s.features s.featuredVideos s.failedFeatures with
  | .error _ => s
  | .ok results =>
      if results.newModelResults.averageLogError < results.previousModelResults.averageLogError then
        { features := results.features
          failedFeatures := s.failedFeatures ++ results.failedFeature.toList
          featuredVideos := results.videos }
      else
        { features := s.features
          failedFeatures := s.failedFeatures ++ [results.newFeature]
          featuredVideos := results.videos }

/-- State after the first `n` iterations, the iteration at index `i`
using the oracle instance `O i`. -/
def runN (O : ℕ → Oracles) (s : RState) : ℕ → RState
  | 0 => s
  | n + 1 => runIteration (O n) (runN O s n)

/-- `runReflexion`'s fixed budget of 10 iterations over an already
featured initial state. -/
def runReflexion (O : ℕ → Oracles) (s : RState) : RState :=
  runN O s 10

/-- The contract of the feature proposer (`addFeature`): a successfully
proposed feature never reuses a name present in the feature list or the
rejection list it was shown. -/
def ProposerContract (o : Oracles) : Prop :=
  ∀ best preds rej f, o.addFeature best preds rej = .ok f →
    f.name ∉ best.map iFeature.name ∧ f.name ∉ rej.map iFeature.name

/-- The reachable-state invariant of claim C4. -/
def StateInvariant (K : ℕ) (s : RState) : Prop :=
  s.features.length = K ∧ (s.features.map iFeature.name).Nodup ∧
    ∀ f ∈ s.features, f.name ∉ s.failedFeatures.map iFeature.name

/-!
## The scorer batching loop (`rankVideos` in `2.Rank.ts`)

The `while` loop of `rankVideos` is modelled as a step function on the
loop's mutable state (`rankings`, `failures`), driven by the stream of
collaborator replies.  Only the video titles influence the control flow,
so the video list is carried as a title list; the Unicode NFKC
normalisation applied when filtering replies is carried as an abstract
`normalize` function (the membership test for *unranked* videos uses
plain `===`, exactly as in the source).  A reply that the collaborator
fails to produce at all would propagate as a thrown `ScoringError`
ending the loop, so non-termination questions only concern successful
replies.
-/

/-- `const batchSize = ollamaModel ? 10 : features.length === 1 ? 40 : 20`. -/
def batchSizeOf (usingOllama : Bool) (featureCount : ℕ) : ℕ :=
  if usingOllama then 10 else if featureCount = 1 then 40 else 20

/-- `const MAX_TRIES = 3`. -/
def MAX_TRIES : ℕ := 3

/-- The loop's mutable state: accumulated `rankings` and the `failures`
counter. -/
structure RankState where
  rankings : List iRanking
  failures : ℕ
deriving DecidableEq, Repr

/-- Where one pass of the `while` body can leave the loop. -/
inductive RankOutcome where
  /-- the loop exited normally and `rankVideos` returns `rankings` -/
  | done (rankings : List iRanking)
  /-- `throw new Error('Max ranking retries exceeded.')` -/
  | thrown
  /-- the loop continues with the updated state -/
  | running (s : RankState)
deriving DecidableEq, Repr

/-- `videos.filter(v => !rankings.find(r => r.title === v.title))`. -/
def unrankedOf (videoTitles : List String) (rankings : List iRanking) : List String :=
  videoTitles.filter (fun t => !(rankings.any (fun r => r.title == t)))

/-- One pass of the `while` body of `rankVideos`, given the collaborator
`reply` for this pass: re-check the loop condition, recompute the
unranked set, throw when a *partial* batch has exhausted the retry
budget, count a failure only when the unranked remainder is smaller than
`batchSize`, and append the reply rows whose (normalised) title matches
the dispatched batch. -/
def rankStep (normalize : String → String) (batchSize : ℕ) (videoTitles : List String)
    (reply : List iRanking) (s : RankState) : RankOutcome :=
  if videoTitles.length ≤ s.rankings.length then .done s.rankings
  else
    let unrankedVideos := unrankedOf videoTitles s.rankings
    if unrankedVideos.length = 0 then .done s.rankings
    else
      let go := fun failures =>
        let batch := unrankedVideos.take batchSize
        let validRankings := reply.filter (fun br =>
          batch.any (fun t => normalize t == normalize br.title))
        RankOutcome.running { rankings := s.rankings ++ validRankings, failures := failures }
      if unrankedVideos.length < batchSize then
        if MAX_TRIES ≤ s.failures then .thrown else go (s.failures + 1)
      else go s.failures

/-- The loop after `n` passes, pass `i` consuming `replies i`; `done` and
`thrown` are absorbing. -/
def rankIter (normalize : String → String) (batchSize : ℕ) (videoTitles : List String)
    (replies : ℕ → List iRanking) : ℕ → RankOutcome
  | 0 => .running { rankings := [], failures := 0 }
  | n + 1 =>
    match rankIter normalize batchSize videoTitles replies n with
    | .running s => rankStep normalize batchSize videoTitles (replies n) s
    | o => o

/-!
## Concrete instances

Small closed inputs on which the theorems below are instantiated.
-/

/-- A feature named `n` with empty summary and body. -/
def mkFeature (n : String) : iFeature := { name := n, summary := "", description := "" }

/-- A video with the five recent-view covariates the pipeline always
supplies and scores for the two initial features. -/
def wVideo : iFeaturedVideo :=
  { title := "t", views := 1, recentViews := [0, 0, 0, 0, 0], features := [("a", 2), ("b", 3)] }

/-- A two-feature active set. -/
def wFeatures : List iFeature := [mkFeature "a", mkFeature "b"]

/-- Collaborators for a run in which every call succeeds: the trainer
returns a constant-zero predictor with weight layout `aux×5 ++ feature×2
++ intercept`, the proposer returns the fresh feature `c`, and the
scorer returns no rows (scores default to `0`). -/
def wOracles : Oracles :=
  { shuffle := id
    trainMLR := fun _ _ => .ok { weights := [0, 0, 0, 0, 0, 1, 2, 0], predict := fun _ => 0 }
    addFeature := fun _ _ _ => .ok (mkFeature "c")
    rankVideos := fun _ _ => .ok []
    expQ := id
    logQ := id }

/-- Collaborators whose trainer always throws, so every iteration is
caught and skipped. -/
def wOraclesFail : Oracles :=
  { shuffle := id
    trainMLR := fun _ _ => .error "singular matrix"
    addFeature := fun _ _ _ => .error "ProposalError"
    rankVideos := fun _ _ => .error "ScoringError"
    expQ := id
    logQ := id }

/-- Collaborators identical to `wOracles` except that the proposer
violates its contract and returns a feature named `b`, colliding with
the active feature `b`. -/
def wOraclesDup : Oracles :=
  { wOracles with addFeature := fun _ _ _ => .ok (mkFeature "b") }

/-- The Controller state entering the concrete iteration. -/
def wState : RState :=
  { features := wFeatures, failedFeatures := [], featuredVideos := [wVideo] }

/-- A bare video used by the worst-prediction scenarios. -/
def mkVideo (t : String) : iFeaturedVideo :=
  { title := t, views := 0, recentViews := [], features := [] }

/-- A model that predicts the single entry of its input row, so the
design matrix below realises any desired prediction vector. -/
def headMLR : MLRModel := { weights := [], predict := fun row => row.headD 0 }

/-- The five entities of Scenario B. -/
def cxVideos5 : List iFeaturedVideo :=
  [mkVideo "0", mkVideo "1", mkVideo "2", mkVideo "3", mkVideo "4"]

/-- Rows realising `signedDelta = [-2, 0.5, 3, -0.1, 1]` against zero
targets. -/
def cxX5 : List (List ℚ) := [[-2], [0.5], [3], [-0.1], [1]]

/-- Zero log-scale targets for Scenario B. -/
def cxY5 : List ℚ := [0, 0, 0, 0, 0]

/-- Two entities whose residuals tie. -/
def cxVideos2 : List iFeaturedVideo := [mkVideo "0", mkVideo "1"]

/-- Twenty distinct video titles: one full non-Ollama batch for a
two-feature run (`batchSize = 20`). -/
def cxTitles20 : List String := (List.range 20).map (fun i => toString i)

/-- An empty evaluation report, used only as a placeholder below. -/
def defaultResults : iResults :=
  { totalLogError := 0, totalViewsError := 0, averageLogError := 0, averageViewsError := 0
    typicalFactor := 0, averagePredictedViews := 0, averageActualViews := 0
    videoCount := 0, mlrWeights := none }

/-- A placeholder step result (never the value actually reached in the
theorems below). -/
def defaultStepResult : StepResult :=
  { previousModelResults := defaultResults, newModelResults := defaultResults
    features := [], videos := [], failedFeature := none, newFeature := defaultFeature
    bestFeatures := [], worstFeature := defaultFeature, worstPredictions := []
    proposerRejectedArg := [], trainingSplit := [], validationSplit := []
    trainingScored := [], validationScored := [], previousPredictions := []
    newPredictions := [], validationY := [] }

/-- The step result of the concrete successful iteration. -/
def wStepResult : StepResult :=
  match reflexionStep wOracles wState.features wState.featuredVideos wState.failedFeatures with
  | .ok r => r
  | .error _ => defaultStepResult

/-- The step result of the concrete iteration with the contract-violating
proposer. -/
def wStepResultDup : StepResult :=
  match reflexionStep wOraclesDup wState.features wState.featuredVideos wState.failedFeatures with
  | .ok r => r
  | .error _ => defaultStepResult

/-- The features `["len","caps"]` of the spec's Scenario A. -/
def cxLenCaps : List iFeature := [mkFeature "len", mkFeature "caps"]

/-- A weight column in the trained layout for 2 features: five
recent-view weights, the two feature weights `1` and `2`, and the
intercept last. -/
def wWeights : List ℚ := [0, 0, 0, 0, 0, 1, 2, 0]

/-- The weight column of the spec's Scenario A (auxiliary dimension 0):
feature weights `0.1` (len) and `5.0` (caps), intercept `1.0` stored
last, matching the spec's `[1.0, 0.1, 5.0]` after moving the intercept
to the front. -/
def cxWeightsA : List ℚ := [1/10, 5, 1]

/-!
## Helper lemmas
-/

/-- Specification of the `reduce` in `updateFeatures`: the fold returns
an index bounded by `n` (or the initial `0`), holding a minimal value,
and strictly smaller than every value at an earlier index (first minimum
wins). -/
theorem argmin_foldl_spec (v : ℕ → ℚ) (n : ℕ) :
    ((List.range n).foldl (fun minIdx idx => if v idx < v minIdx then idx else minIdx) 0 = 0 ∨
      (List.range n).foldl (fun minIdx idx => if v idx < v minIdx then idx else minIdx) 0 < n) ∧
    (∀ i < n, v ((List.range n).foldl (fun minIdx idx => if v idx < v minIdx then idx else minIdx) 0) ≤ v i) ∧
    (∀ i < (List.range n).foldl (fun minIdx idx => if v idx < v minIdx then idx else minIdx) 0,
      v ((List.range n).foldl (fun minIdx idx => if v idx < v minIdx then idx else minIdx) 0) < v i) := by
  induction n with
  | zero => simp
  | succ n ih =>
    obtain ⟨hb, hmin, hfirst⟩ := ih
    rw [List.range_succ, List.foldl_append, List.foldl_cons, List.foldl_nil]
    set r := (List.range n).foldl (fun minIdx idx => if v idx < v minIdx then idx else minIdx) 0 with hr
    by_cases hv : v n < v r
    · rw [if_pos hv]
      refine ⟨Or.inr (Nat.lt_succ_self n), ?_, ?_⟩
      · intro i hi
        rcases Nat.lt_succ_iff_lt_or_eq.mp hi with h | h
        · exact le_of_lt (lt_of_lt_of_le hv (hmin i h))
        · subst h; exact le_refl _
      · intro i hi
        exact lt_of_lt_of_le hv (hmin i hi)
    · rw [if_neg hv]
      refine ⟨?_, ?_, hfirst⟩
      · rcases hb with h | h
        · exact Or.inl h
        · exact Or.inr (Nat.lt_succ_of_lt h)
      · intro i hi
        rcases Nat.lt_succ_iff_lt_or_eq.mp hi with h | h
        · exact hmin i h
        · subst h; exact le_of_not_lt hv

/-- `leastIdx` stays in bounds on a non-empty list. -/
theorem leastIdx_lt_length (imps : List ℚ) (h : 0 < imps.length) :
    leastIdx imps < imps.length := by
  rcases (argmin_foldl_spec (fun i => imps.getD i 0) imps.length).1 with h0 | hlt
  · rw [leastIdx, h0]; exact h
  · exact hlt

/-- `leastIdx` points at a minimal value. -/
theorem leastIdx_min (imps : List ℚ) :
    ∀ i < imps.length, imps.getD (leastIdx imps) 0 ≤ imps.getD i 0 :=
  (argmin_foldl_spec (fun i => imps.getD i 0) imps.length).2.1

/-- `leastIdx` points at the first minimal value: every earlier entry is
strictly larger. -/
theorem leastIdx_first (imps : List ℚ) :
    ∀ i < leastIdx imps, imps.getD (leastIdx imps) 0 < imps.getD i 0 :=
  (argmin_foldl_spec (fun i => imps.getD i 0) imps.length).2.2

/-- Anatomy of a successful `updateFeatures` call: the coefficient slice
has the length of the feature list and the returned pair is the
eviction at the first absolute-minimum position. -/
theorem updateFeatures_ok_anatomy (features : List iFeature) (ws : List ℚ)
    (best : List iFeature) (worst : iFeature)
    (h : updateFeatures features ws = .ok (best, worst)) :
    (((ws.take (ws.length - 1)).drop 4).drop 1).length = features.length ∧
    best = features.eraseIdx
      (leastIdx ((((ws.take (ws.length - 1)).drop 4).drop 1).map (fun w => |w|))) ∧
    worst = features.getD
      (leastIdx ((((ws.take (ws.length - 1)).drop 4).drop 1).map (fun w => |w|))) defaultFeature := by
  simp only [updateFeatures] at h
  split at h
  · exact absurd h (by simp)
  · rename_i hlen
    simp only [Except.ok.injEq, Prod.mk.injEq] at h
    exact ⟨by omega, h.1.symm, h.2.symm⟩

/-- Anatomy of a successful `trainFeatureModel` call. -/
theorem trainFeatureModel_ok_anatomy (o : Oracles) (fs : List iFeature)
    (vids : List iFeaturedVideo) (m : MLRModel × List (List ℚ) × List ℚ)
    (h : trainFeatureModel o fs vids = .ok m) :
    o.trainMLR (buildX fs vids) (buildY o.logQ vids) = .ok m.1 ∧
    m.2.1 = buildX fs vids ∧ m.2.2 = buildY o.logQ vids := by
  simp only [trainFeatureModel, bind, Except.bind, pure, Except.pure] at h
  split at h
  · exact absurd h (by simp)
  · rename_i mlr heq
    cases h
    exact ⟨heq, rfl, rfl⟩

/-- Anatomy of a successful `reportLogErrors` call: the two series have
equal length and `averageLogError` is the mean absolute log-scale
residual. -/
theorem reportLogErrors_ok_anatomy (expQ : ℚ → ℚ) (p a : List ℚ) (m : Option MLRModel)
    (res : iResults) (h : reportLogErrors expQ p a m = .ok res) :
    p.length = a.length ∧ res.averageLogError = meanAbsLogError p a ∧
    res.videoCount = p.length := by
  simp only [reportLogErrors] at h
  split at h
  · exact absurd h (by simp)
  · rename_i hlen
    cases h
    exact ⟨by omega, rfl, rfl⟩

/-- Anatomy of a successful `reflexionStep`: every returned field is the
value the source computes for it, with the oracle replies that produced
them. -/
theorem reflexionStep_ok_anatomy (o : Oracles) (fs : List iFeature) (vids : List iFeaturedVideo)
    (rej : List iFeature) (r : StepResult)
    (h : reflexionStep o fs vids rej = .ok r) :
    r.trainingSplit = (o.shuffle vids).take ((o.shuffle vids).length * 4 / 5) ∧
    r.validationSplit = (o.shuffle vids).drop ((o.shuffle vids).length * 4 / 5) ∧
    r.validationY = r.validationSplit.map (fun v => o.logQ (v.views + 1)) ∧
    r.features = r.bestFeatures ++ [r.newFeature] ∧
    r.proposerRejectedArg =
      (if rej.any (fun f => f.name == r.worstFeature.name) then rej else rej ++ [r.worstFeature]) ∧
    o.addFeature r.bestFeatures r.worstPredictions r.proposerRejectedArg = .ok r.newFeature ∧
    r.failedFeature = fs.find? (fun f => !(r.features.any (fun uf => uf.name == f.name))) ∧
    r.videos = r.trainingScored ++ r.validationScored ∧
    (∃ mlr, trainFeatureModel o fs r.trainingSplit =
        .ok (mlr, buildX fs r.trainingSplit, buildY o.logQ r.trainingSplit) ∧
      updateFeatures fs mlr.weights = .ok (r.bestFeatures, r.worstFeature) ∧
      r.worstPredictions = getWorstPredictions o.expQ r.trainingSplit mlr
        (buildX fs r.trainingSplit) (buildY o.logQ r.trainingSplit) ∧
      r.previousPredictions = (buildX fs r.validationSplit).map mlr.predict ∧
      reportLogErrors o.expQ r.previousPredictions r.validationY (some mlr) =
        .ok r.previousModelResults) ∧
    (∃ rk, o.rankVideos r.trainingSplit [r.newFeature] = .ok rk ∧
      r.trainingScored = r.trainingSplit.map (fun v =>
        { v with features := featInsert v.features r.newFeature.name (rankLookup rk v.title r.newFeature.name) })) ∧
    (∃ rk, o.rankVideos r.validationSplit [r.newFeature] = .ok rk ∧
      r.validationScored = r.validationSplit.map (fun v =>
        { v with features := featInsert v.features r.newFeature.name (rankLookup rk v.title r.newFeature.name) })) ∧
    (∃ nm, (∃ m2, trainFeatureModel o r.features r.trainingScored = .ok m2 ∧ nm = m2.1) ∧
      r.newPredictions = (buildX r.features r.validationScored).map nm.predict ∧
      reportLogErrors o.expQ r.newPredictions r.validationY (some nm) = .ok r.newModelResults) := by
  unfold reflexionStep at h
  simp only [bind, Except.bind, pure, Except.pure] at h
  split at h
  · exact absurd h (by simp)
  rename_i x7 m7 hm7
  split at h
  · exact absurd h (by simp)
  rename_i x6 p6 hp6
  split at h
  · exact absurd h (by simp)
  rename_i x5 f5 hf5
  split at h
  · exact absurd h (by simp)
  rename_i x4 rk4 hrk4
  split at h
  · exact absurd h (by simp)
  rename_i x3 m3 hm3
  split at h
  · exact absurd h (by simp)
  rename_i x2 resP hresP
  split at h
  · exact absurd h (by simp)
  rename_i x1 rk1 hrk1
  split at h
  · exact absurd h (by simp)
  rename_i x0 resN hresN
  split at h
  all_goals rename_i hif
  all_goals obtain ⟨ht1, ht2, ht3⟩ := trainFeatureModel_ok_anatomy o fs _ m7 hm7
  all_goals cases h
  all_goals
    exact ⟨rfl, rfl, rfl, rfl, by simp [hif], by simpa [hif] using hf5, rfl, rfl,
      ⟨m7.1, by rw [← ht2, ← ht3]; exact hm7, hp6, by rw [← ht2, ← ht3], rfl, hresP⟩,
      ⟨rk4, hrk4, rfl⟩, ⟨rk1, hrk1, rfl⟩, ⟨m3.1, ⟨m3, hm3, rfl⟩, rfl, hresN⟩⟩

/-- A list splits at any in-bounds index. -/
theorem list_decomp_at {α : Type} (l : List α) (d : α) (j : ℕ) (hj : j < l.length) :
    l.take j ++ l.getD j d :: l.drop (j + 1) = l := by
  rw [List.getD_eq_getElem l d hj, ← List.drop_eq_getElem_cons hj, List.take_append_drop]

/-- Membership in a list is membership in the eviction or equality with
the evicted element. -/
theorem mem_of_decomp {α : Type} (l : List α) (d : α) (j : ℕ) (hj : j < l.length)
    (x : α) (hx : x ∈ l) : x ∈ l.eraseIdx j ∨ x = l.getD j d := by
  rw [← list_decomp_at l d j hj] at hx
  rw [List.eraseIdx_eq_take_drop_succ]
  rcases List.mem_append.mp hx with h | h
  · exact Or.inl (List.mem_append.mpr (Or.inl h))
  · rcases List.mem_cons.mp h with h | h
    · exact Or.inr h
    · exact Or.inl (List.mem_append.mpr (Or.inr h))

/-- The element at an in-bounds index is a member. -/
theorem getD_mem {α : Type} (l : List α) (d : α) (j : ℕ) (hj : j < l.length) :
    l.getD j d ∈ l := by
  rw [List.getD_eq_getElem l d hj]
  exact List.getElem_mem hj

/-- Under distinct names, the evicted feature's name does not survive
into the eviction. -/
theorem getD_name_not_mem_eraseIdx (fs : List iFeature) (j : ℕ) (hj : j < fs.length)
    (hnodup : (fs.map iFeature.name).Nodup) :
    (fs.getD j defaultFeature).name ∉ (fs.eraseIdx j).map iFeature.name := by
  have hdec := list_decomp_at fs defaultFeature j hj
  have hnames : fs.map iFeature.name =
      (fs.take j).map iFeature.name ++
        (fs.getD j defaultFeature).name :: (fs.drop (j + 1)).map iFeature.name := by
    conv_lhs => rw [← hdec]
    simp
  rw [hnames] at hnodup
  obtain ⟨h1, h2, hdisj⟩ := List.nodup_append.mp hnodup
  intro hmem
  rw [List.eraseIdx_eq_take_drop_succ, List.map_append] at hmem
  rcases List.mem_append.mp hmem with h | h
  · exact hdisj h (List.mem_cons_self _ _)
  · exact (List.nodup_cons.mp h2).1 h

/-- `find?` over a decomposed list whose first matching element is the
middle one. -/
theorem find_first_not_named (pre : List iFeature) (w : iFeature) (suf : List iFeature)
    (E : List iFeature) (hpre : ∀ x ∈ pre, x ∈ E) (hw : ∀ uf ∈ E, uf.name ≠ w.name) :
    (pre ++ w :: suf).find? (fun f => !(E.any (fun uf => uf.name == f.name))) = some w := by
  rw [List.find?_append]
  have hnone : pre.find? (fun f => !(E.any (fun uf => uf.name == f.name))) = none := by
    rw [List.find?_eq_none]
    intro x hx
    simp only [Bool.not_eq_true', Bool.not_eq_false, List.any_eq_true]
    exact ⟨x, hpre x hx, by simp⟩
  rw [hnone, Option.none_or, List.find?_cons]
  have hpw : (E.any (fun uf => uf.name == w.name)) = false := by
    rw [List.any_eq_false]
    intro uf huf
    simpa using hw uf huf
  simp [hpw]

/-- In the source, `failedFeature` — the feature of the previous active
set missing from the candidate set — is exactly the evicted feature,
provided the active names are distinct and the newcomer's name is
fresh. -/
theorem findFailed_eq (fs : List iFeature) (j : ℕ) (nf : iFeature) (hj : j < fs.length)
    (hnodup : (fs.map iFeature.name).Nodup)
    (hfresh : nf.name ∉ fs.map iFeature.name) :
    fs.find? (fun f => !((fs.eraseIdx j ++ [nf]).any (fun uf => uf.name == f.name))) =
      some (fs.getD j defaultFeature) := by
  have hdec := list_decomp_at fs defaultFeature j hj
  have hpre : ∀ x ∈ fs.take j, x ∈ fs.eraseIdx j ++ [nf] := by
    intro x hx
    rw [List.eraseIdx_eq_take_drop_succ]
    exact List.mem_append_left _ (List.mem_append_left _ hx)
  have hwmem : (fs.getD j defaultFeature).name ∈ fs.map iFeature.name :=
    List.mem_map_of_mem _ (getD_mem fs defaultFeature j hj)
  have hw : ∀ uf ∈ fs.eraseIdx j ++ [nf], uf.name ≠ (fs.getD j defaultFeature).name := by
    intro uf huf heq
    rcases List.mem_append.mp huf with h | h
    · exact getD_name_not_mem_eraseIdx fs j hj hnodup (heq ▸ List.mem_map_of_mem _ h)
    · have : uf = nf := by simpa using h
      subst this
      exact hfresh (heq ▸ hwmem)
  have key := find_first_not_named (fs.take j) (fs.getD j defaultFeature) (fs.drop (j + 1))
    (fs.eraseIdx j ++ [nf]) hpre hw
  rwa [hdec] at key

/-!
## Claim theorems
-/

/-- C1: for every iteration that completes without an exception, the
Controller sets the active feature set to the candidate set iff the new
model's `averageLogError` — the mean absolute residual in the model's
native (log) scale over the validation split — is strictly smaller than
the old model's; when the comparison is not strict the active set is
unchanged. -/
theorem c1_acceptance_policy (o : Oracles) (s : RState) (r : StepResult)
    (hstep : reflexionStep o s.features s.featuredVideos s.failedFeatures = .ok r) :
    (runIteration o s).features =
      (if r.newModelResults.averageLogError < r.previousModelResults.averageLogError
        then r.features else s.features) ∧
    r.previousModelResults.averageLogError =
      meanAbsLogError r.previousPredictions r.validationY ∧
    r.newModelResults.averageLogError = meanAbsLogError r.newPredictions r.validationY ∧
    r.validationY = r.validationSplit.map (fun v => o.logQ (v.views + 1)) ∧
    (¬ r.newModelResults.averageLogError < r.previousModelResults.averageLogError →
      (runIteration o s).features = s.features) := by
  obtain ⟨-, -, hvy, -, -, -, -, -, ⟨mlr, -, -, -, -, hresP⟩, -, -, ⟨nm, -, -, hresN⟩⟩ :=
    reflexionStep_ok_anatomy o s.features s.featuredVideos s.failedFeatures r hstep
  have hP := (reportLogErrors_ok_anatomy _ _ _ _ _ hresP).2.1
  have hN := (reportLogErrors_ok_anatomy _ _ _ _ _ hresN).2.1
  refine ⟨?_, hP, hN, hvy, ?_⟩
  · by_cases hc : r.newModelResults.averageLogError < r.previousModelResults.averageLogError
    · simp only [runIteration, hstep, hc, if_true, if_pos]
    · simp only [runIteration, hstep, hc, if_false, if_neg, not_false_iff]
  · intro hc
    simp only [runIteration, hstep, hc, if_false, if_neg, not_false_iff]

/-- C1, witnessed on the concrete iteration (the candidate is rejected
because the two validation errors tie at 2). -/
theorem c1_acceptance_policy_witness :
    reflexionStep wOracles wState.features wState.featuredVideos wState.failedFeatures =
      .ok wStepResult ∧
    (runIteration wOracles wState).features =
      (if wStepResult.newModelResults.averageLogError <
          wStepResult.previousModelResults.averageLogError
        then wStepResult.features else wState.features) :=
  ⟨rfl, (c1_acceptance_policy wOracles wState wStepResult rfl).1⟩

/-- C6: an exception inside one iteration does not escape: the state —
active features, rejection history, featured-video store — after the
iteration equals the state before it, and within `runN` the loop simply
moves on to the next iteration index with that unchanged state. -/
theorem c6_exception_isolation (o : Oracles) (s : RState) (e : String)
    (hstep : reflexionStep o s.features s.featuredVideos s.failedFeatures = .error e) :
    runIteration o s = s ∧
    (runIteration o s).features = s.features ∧
    (runIteration o s).failedFeatures = s.failedFeatures ∧
    (runIteration o s).featuredVideos = s.featuredVideos ∧
    (∀ (O : ℕ → Oracles) (n : ℕ), O n = o → runN O s n = s → runN O s (n + 1) = s) := by
  have h1 : runIteration o s = s := by
    unfold runIteration
    rw [hstep]
  refine ⟨h1, by rw [h1], by rw [h1], by rw [h1], ?_⟩
  intro O n hO hrun
  show runIteration (O n) (runN O s n) = s
  rw [hO, hrun, h1]

/-- C6, witnessed on the oracles whose trainer always throws. -/
theorem c6_exception_isolation_witness :
    reflexionStep wOraclesFail wState.features wState.featuredVideos wState.failedFeatures =
      .error "singular matrix" ∧
    runIteration wOraclesFail wState = wState :=
  ⟨rfl, (c6_exception_isolation wOraclesFail wState "singular matrix" rfl).1⟩

/-- C9: in every iteration that reaches the proposer, the proposer is
called with the rejection history extended by the about-to-be-dropped
feature exactly when no rejected feature already bears that name; the
extension is computed inside the step, before the accept/reject decision
exists, so it is independent of the iteration's outcome. -/
theorem c9_proposer_rejection_extension (o : Oracles) (s : RState) (r : StepResult)
    (hstep : reflexionStep o s.features s.featuredVideos s.failedFeatures = .ok r) :
    r.proposerRejectedArg =
      (if s.failedFeatures.any (fun f => f.name == r.worstFeature.name) then s.failedFeatures
        else s.failedFeatures ++ [r.worstFeature]) ∧
    o.addFeature r.bestFeatures r.worstPredictions r.proposerRejectedArg = .ok r.newFeature := by
  obtain ⟨-, -, -, -, hrejarg, hcall, -, -, -, -, -, -⟩ :=
    reflexionStep_ok_anatomy o s.features s.featuredVideos s.failedFeatures r hstep
  exact ⟨hrejarg, hcall⟩

/-- C9, witnessed on the concrete iteration: the proposer saw
`[a]` (the dropped feature appended to the empty history). -/
theorem c9_proposer_rejection_extension_witness :
    reflexionStep wOracles wState.features wState.featuredVideos wState.failedFeatures =
      .ok wStepResult ∧
    wStepResult.proposerRejectedArg =
      (if wState.failedFeatures.any (fun f => f.name == wStepResult.worstFeature.name)
        then wState.failedFeatures else wState.failedFeatures ++ [wStepResult.worstFeature]) :=
  ⟨rfl, (c9_proposer_rejection_extension wOracles wState wStepResult rfl).1⟩

/-- C10: after every iteration that completes without an exception —
whether the candidate was accepted or rejected — the featured-video
store equals the step's re-scored training and validation videos, and
every stored video carries a score binding for the iteration's candidate
feature; on reject the candidate is nevertheless absent from the active
set, which is unchanged. -/
theorem c10_video_store_replacement (o : Oracles) (s : RState) (r : StepResult)
    (hstep : reflexionStep o s.features s.featuredVideos s.failedFeatures = .ok r) :
    (runIteration o s).featuredVideos = r.videos ∧
    r.videos = r.trainingScored ++ r.validationScored ∧
    (∀ v ∈ r.videos, featHasKey v.features r.newFeature.name = true) ∧
    (¬ r.newModelResults.averageLogError < r.previousModelResults.averageLogError →
      (runIteration o s).features = s.features) := by
  obtain ⟨-, -, -, -, -, -, -, hvids, -, ⟨rkT, -, hT⟩, ⟨rkV, -, hV⟩, -⟩ :=
    reflexionStep_ok_anatomy o s.features s.featuredVideos s.failedFeatures r hstep
  refine ⟨?_, hvids, ?_, ?_⟩
  · simp only [runIteration, hstep]
    split <;> rfl
  · intro v hv
    rw [hvids] at hv
    have hkey : ∀ (w : iFeaturedVideo) (rk : List iRanking),
        featHasKey (featInsert w.features r.newFeature.name
          (rankLookup rk w.title r.newFeature.name)) r.newFeature.name = true := by
      intro w rk
      simp [featHasKey, featInsert]
    rcases List.mem_append.mp hv with h | h
    · rw [hT] at h
      obtain ⟨w, -, hw⟩ := List.mem_map.mp h
      rw [← hw]
      exact hkey w rkT
    · rw [hV] at h
      obtain ⟨w, -, hw⟩ := List.mem_map.mp h
      rw [← hw]
      exact hkey w rkV
  · intro hc
    simp only [runIteration, hstep, hc, if_false, if_neg, not_false_iff]

/-- C10, witnessed on the concrete iteration: the store is replaced by
the step's videos even though the candidate was rejected. -/
theorem c10_video_store_replacement_witness :
    reflexionStep wOracles wState.features wState.featuredVideos wState.failedFeatures =
      .ok wStepResult ∧
    (runIteration wOracles wState).featuredVideos = wStepResult.videos :=
  ⟨rfl, (c10_video_store_replacement wOracles wState wStepResult rfl).1⟩

/-- C3: the rejection memory distinguishes who failed — on accept the
evicted least-important feature is the one appended (and the active set
becomes the candidate set), on reject the proposed candidate is the one
appended (and the active set is unchanged). -/
theorem c3_rejection_memory (o : Oracles) (s : RState) (r : StepResult)
    (hstep : reflexionStep o s.features s.featuredVideos s.failedFeatures = .ok r)
    (hK : 0 < s.features.length)
    (hnodup : (s.features.map iFeature.name).Nodup)
    (hfresh : r.newFeature.name ∉ s.features.map iFeature.name) :
    (r.newModelResults.averageLogError < r.previousModelResults.averageLogError →
      (runIteration o s).failedFeatures = s.failedFeatures ++ [r.worstFeature] ∧
      (runIteration o s).features = r.features) ∧
    (¬ r.newModelResults.averageLogError < r.previousModelResults.averageLogError →
      (runIteration o s).failedFeatures = s.failedFeatures ++ [r.newFeature] ∧
      (runIteration o s).features = s.features) ∧
    r.features = r.bestFeatures ++ [r.newFeature] := by
  obtain ⟨-, -, -, hfeat, -, -, hfail, -, ⟨mlr, -, hupd, -, -, -⟩, -, -, -⟩ :=
    reflexionStep_ok_anatomy o s.features s.featuredVideos s.failedFeatures r hstep
  obtain ⟨hclen, hbest, hworst⟩ := updateFeatures_ok_anatomy _ _ _ _ hupd
  have himps :
      ((((mlr.weights.take (mlr.weights.length - 1)).drop 4).drop 1).map
        (fun w => |w|)).length = s.features.length := by
    rw [List.length_map, hclen]
  have hj :
      leastIdx ((((mlr.weights.take (mlr.weights.length - 1)).drop 4).drop 1).map
        (fun w => |w|)) < s.features.length := by
    rw [← himps]
    exact leastIdx_lt_length _ (by rw [himps]; exact hK)
  rw [hfeat, hbest] at hfail
  have hfailed : r.failedFeature = some r.worstFeature := by
    rw [hfail, findFailed_eq s.features _ r.newFeature hj hnodup hfresh, hworst]
  have hrun : runIteration o s =
      (if r.newModelResults.averageLogError < r.previousModelResults.averageLogError then
        { features := r.features
          failedFeatures := s.failedFeatures ++ r.failedFeature.toList
          featuredVideos := r.videos }
      else
        { features := s.features
          failedFeatures := s.failedFeatures ++ [r.newFeature]
          featuredVideos := r.videos }) := by
    unfold runIteration
    rw [hstep]
  refine ⟨?_, ?_, hfeat⟩
  · intro hc
    rw [hrun, if_pos hc]
    exact ⟨by rw [hfailed]; rfl, rfl⟩
  · intro hc
    rw [hrun, if_neg hc]
    exact ⟨rfl, rfl⟩

/-- C3, witnessed on the concrete iteration: every hypothesis holds and
the candidate set is the eviction plus the newcomer. -/
theorem c3_rejection_memory_witness :
    reflexionStep wOracles wState.features wState.featuredVideos wState.failedFeatures =
      .ok wStepResult ∧
    0 < wState.features.length ∧
    (wState.features.map iFeature.name).Nodup ∧
    wStepResult.newFeature.name ∉ wState.features.map iFeature.name ∧
    wStepResult.features = wStepResult.bestFeatures ++ [wStepResult.newFeature] :=
  ⟨rfl, by decide, by decide, by decide,
    (c3_rejection_memory wOracles wState wStepResult rfl (by decide) (by decide)
      (by decide)).2.2⟩

/-- One iteration preserves the C4 invariant, given the proposer
contract. -/
theorem runIteration_preserves_invariant (K : ℕ) (hK : 0 < K) (o : Oracles) (s : RState)
    (hPC : ProposerContract o) (hI : StateInvariant K s) :
    StateInvariant K (runIteration o s) := by
  obtain ⟨hlenK, hnodup, hdisj⟩ := hI
  cases hstep : reflexionStep o s.features s.featuredVideos s.failedFeatures with
  | error e =>
    have h1 : runIteration o s = s := by
      unfold runIteration
      rw [hstep]
    rw [h1]
    exact ⟨hlenK, hnodup, hdisj⟩
  | ok r =>
    obtain ⟨-, -, -, hfeat, hrejarg, hcall, hfail, -, ⟨mlr, -, hupd, -, -, -⟩, -, -, -⟩ :=
      reflexionStep_ok_anatomy o s.features s.featuredVideos s.failedFeatures r hstep
    obtain ⟨hclen, hbest, hworst⟩ := updateFeatures_ok_anatomy _ _ _ _ hupd
    have himps :
        ((((mlr.weights.take (mlr.weights.length - 1)).drop 4).drop 1).map
          (fun w => |w|)).length = s.features.length := by
      rw [List.length_map, hclen]
    have hj :
        leastIdx ((((mlr.weights.take (mlr.weights.length - 1)).drop 4).drop 1).map
          (fun w => |w|)) < s.features.length := by
      rw [← himps]
      exact leastIdx_lt_length _ (by rw [himps, hlenK]; exact hK)
    have hwmem : r.worstFeature ∈ s.features := by
      rw [hworst]
      exact getD_mem _ _ _ hj
    have hwname : r.worstFeature.name ∉ s.failedFeatures.map iFeature.name := hdisj _ hwmem
    have hany : s.failedFeatures.any (fun f => f.name == r.worstFeature.name) = false := by
      rw [List.any_eq_false]
      intro f hf heq0
      have heq : f.name = r.worstFeature.name := by simpa using heq0
      exact hwname (heq ▸ List.mem_map_of_mem _ hf)
    have hrejarg' : r.proposerRejectedArg = s.failedFeatures ++ [r.worstFeature] := by
      rw [hrejarg, hany, if_neg (show ¬(false = true) by simp)]
    obtain ⟨hnf1, hnf2⟩ := hPC _ _ _ _ hcall
    rw [hrejarg'] at hnf2
    have hfresh : r.newFeature.name ∉ s.features.map iFeature.name := by
      intro hmem
      obtain ⟨f, hfmem, hfname⟩ := List.mem_map.mp hmem
      rcases mem_of_decomp s.features defaultFeature _ hj f hfmem with hcase | hcase
      · refine hnf1 ?_
        rw [hbest]
        exact hfname ▸ List.mem_map_of_mem _ hcase
      · refine hnf2 ?_
        rw [List.map_append]
        refine List.mem_append_right _ ?_
        have heq : r.newFeature.name = r.worstFeature.name := by
          rw [← hfname, hcase, hworst]
        rw [heq]
        simp
    rw [hfeat, hbest] at hfail
    have hfailed : r.failedFeature = some r.worstFeature := by
      rw [hfail, findFailed_eq s.features _ r.newFeature hj hnodup hfresh, hworst]
    have hsub : ((s.features.eraseIdx
        (leastIdx ((((mlr.weights.take (mlr.weights.length - 1)).drop 4).drop 1).map
          (fun w => |w|)))).map iFeature.name).Sublist (s.features.map iFeature.name) :=
      (s.features.eraseIdx_sublist _).map _
    have hnodupE := hsub.nodup hnodup
    have hwnotE : r.worstFeature.name ∉ (s.features.eraseIdx
        (leastIdx ((((mlr.weights.take (mlr.weights.length - 1)).drop 4).drop 1).map
          (fun w => |w|)))).map iFeature.name := by
      rw [hworst]
      exact getD_name_not_mem_eraseIdx s.features _ hj hnodup
    have hnf1' : r.newFeature.name ∉ (s.features.eraseIdx
        (leastIdx ((((mlr.weights.take (mlr.weights.length - 1)).drop 4).drop 1).map
          (fun w => |w|)))).map iFeature.name := by
      rw [← hbest]
      exact hnf1
    simp only [runIteration, hstep]
    split
    · -- accept
      refine ⟨?_, ?_, ?_⟩
      · show r.features.length = K
        rw [hfeat, hbest, List.length_append, List.length_eraseIdx, if_pos hj]
        simp only [List.length_cons, List.length_nil]
        omega
      · show (r.features.map iFeature.name).Nodup
        rw [hfeat, hbest, List.map_append]
        rw [List.nodup_append]
        refine ⟨hnodupE, by simp, ?_⟩
        intro a ha hb
        have : a = r.newFeature.name := by simpa using hb
        exact hnf1' (this ▸ ha)
      · show ∀ f ∈ r.features,
          f.name ∉ (s.failedFeatures ++ r.failedFeature.toList).map iFeature.name
        intro f hf
        rw [hfailed]
        rw [hfeat, hbest] at hf
        simp only [Option.toList_some, List.map_append, List.mem_append]
        rcases List.mem_append.mp hf with h | h
        · rintro (hmem | hmem)
          · exact hdisj f ((s.features.eraseIdx_sublist _).mem h) hmem
          · have : f.name = r.worstFeature.name := by simpa using hmem
            exact hwnotE (this ▸ List.mem_map_of_mem _ h)
        · have hfnf : f = r.newFeature := by simpa using h
          subst hfnf
          rintro (hmem | hmem)
          · exact hnf2 (by rw [List.map_append]; exact List.mem_append_left _ hmem)
          · have hW : r.newFeature.name = r.worstFeature.name := by simpa using hmem
            refine hnf2 ?_
            rw [List.map_append, hW]
            simp
    · -- reject
      refine ⟨hlenK, hnodup, ?_⟩
      intro f hf
      simp only [List.map_append, List.mem_append]
      rintro (hmem | hmem)
      · exact hdisj f hf hmem
      · have : f.name = r.newFeature.name := by simpa using hmem
        exact hfresh (this ▸ List.mem_map_of_mem _ hf)

/-- C4: from an initial state with `K ≥ 1` distinctly-named active
features and an empty rejection history, as long as the proposer honours
its freshness contract, every reachable state keeps exactly `K` active
features, with pairwise-distinct names, none of which appears in the
rejection history. -/
theorem c4_state_invariant (K : ℕ) (hK : 0 < K) (O : ℕ → Oracles)
    (hPC : ∀ i, ProposerContract (O i)) (s0 : RState)
    (hlen : s0.features.length = K)
    (hnodup : (s0.features.map iFeature.name).Nodup)
    (hrej : s0.failedFeatures = []) (n : ℕ) :
    StateInvariant K (runN O s0 n) := by
  induction n with
  | zero => exact ⟨hlen, hnodup, by simp [runN, hrej]⟩
  | succ n ih => exact runIteration_preserves_invariant K hK (O n) _ (hPC n) ih

/-- C4, witnessed: three iterations whose collaborators always fail keep
the invariant (state unchanged each time). -/
theorem c4_state_invariant_witness :
    0 < 2 ∧ wState.features.length = 2 ∧ (wState.features.map iFeature.name).Nodup ∧
    wState.failedFeatures = [] ∧
    StateInvariant 2 (runN (fun _ => wOraclesFail) wState 3) :=
  ⟨by decide, by decide, by decide, by decide,
    c4_state_invariant 2 (by decide) (fun _ => wOraclesFail)
      (fun _ _ _ _ _ h => nomatch h) wState (by decide) (by decide) (by decide) 3⟩

/-- C2, counterexample: the claim's own Scenario A — auxiliary dimension
0, features `["len","caps"]`, coefficients `[1.0, 0.1, 5.0]` (intercept
first; stored as `[0.1, 5.0, 1.0]` with the intercept last) — does not
return `{index 0, name "len", importance 0.1}`: `updateFeatures`
hard-codes five auxiliary weights (`weights.slice(4, length - 1)` plus
one more dropped entry), so the coefficient slice is empty and the call
throws `Feature length mismatch`. -/
theorem c2_aux_dim_counterexample :
    updateFeatures cxLenCaps cxWeightsA = .error "Feature length mismatch" := rfl

/-- C2, amended: `updateFeatures` has no auxiliary-dimension parameter;
it assumes exactly five auxiliary weights before the feature weights and
the intercept stored last.  Under that fixed layout (`weights.length =
features.length + 6`) the importance used for feature `i` is
`|weights[5 + i]|` — the spec's `abs(coefficients[1 + aux + i])` with
`aux = 5` once the trailing intercept is moved to the front — and the
feature evicted is the first one of minimal importance.  Any other
auxiliary count fails the length check (see the counterexample). -/
theorem c2_importance_fixed_layout (features : List iFeature) (ws : List ℚ)
    (hK : 0 < features.length) (hlen : ws.length = features.length + 6) :
    ∃ j, j < features.length ∧
      updateFeatures features ws =
        .ok (features.eraseIdx j, features.getD j defaultFeature) ∧
      (∀ i < features.length, |ws.getD (5 + j) 0| ≤ |ws.getD (5 + i) 0|) ∧
      (∀ i < j, |ws.getD (5 + j) 0| < |ws.getD (5 + i) 0|) := by
  have h1 : ws.length - 1 = features.length + 5 := by omega
  have hcoe : ((ws.take (ws.length - 1)).drop 4).drop 1 = (ws.drop 5).take features.length := by
    rw [List.drop_drop, h1, List.drop_take]
    norm_num
  have hclen : ((ws.drop 5).take features.length).length = features.length := by
    rw [List.length_take, List.length_drop, hlen]
    omega
  have hget : ∀ i, i < features.length →
      ((ws.drop 5).take features.length).getD i 0 = ws.getD (5 + i) 0 := by
    intro i hi
    have hi2 : i < ((ws.drop 5).take features.length).length := by
      rw [hclen]
      exact hi
    have hi3 : 5 + i < ws.length := by omega
    rw [List.getD_eq_getElem _ _ hi2, List.getD_eq_getElem _ _ hi3, List.getElem_take,
      List.getElem_drop]
  have himps2 : (((ws.take (ws.length - 1)).drop 4).drop 1).map (fun w => |w|) =
      ((ws.drop 5).take features.length).map (fun w => |w|) := by
    rw [hcoe]
  have himpslen : ((((ws.take (ws.length - 1)).drop 4).drop 1).map (fun w => |w|)).length =
      features.length := by
    rw [himps2, List.length_map, hclen]
  have hgetimps : ∀ i, i < features.length →
      ((((ws.take (ws.length - 1)).drop 4).drop 1).map (fun w => |w|)).getD i 0 =
        |ws.getD (5 + i) 0| := by
    intro i hi
    have hi2 : i < (((ws.drop 5).take features.length).map (fun w => |w|)).length := by
      rw [List.length_map, hclen]
      exact hi
    have hi4 : i < ((ws.drop 5).take features.length).length := by
      rw [hclen]
      exact hi
    rw [himps2, List.getD_eq_getElem _ _ hi2, List.getElem_map, ← hget i hi,
      List.getD_eq_getElem _ _ hi4]
  have hupd : updateFeatures features ws =
      .ok (features.eraseIdx
            (leastIdx ((((ws.take (ws.length - 1)).drop 4).drop 1).map (fun w => |w|))),
        features.getD
          (leastIdx ((((ws.take (ws.length - 1)).drop 4).drop 1).map (fun w => |w|)))
          defaultFeature) := by
    simp only [updateFeatures]
    rw [if_neg (by rw [hcoe, hclen]; simp)]
  have hjlt : leastIdx ((((ws.take (ws.length - 1)).drop 4).drop 1).map (fun w => |w|)) <
      features.length := by
    rw [← himpslen]
    exact leastIdx_lt_length _ (by rw [himpslen]; exact hK)
  refine ⟨leastIdx ((((ws.take (ws.length - 1)).drop 4).drop 1).map (fun w => |w|)),
    hjlt, hupd, ?_, ?_⟩
  · intro i hi
    have hmin := leastIdx_min
      ((((ws.take (ws.length - 1)).drop 4).drop 1).map (fun w => |w|)) i
      (by rw [himpslen]; exact hi)
    rwa [hgetimps _ hjlt, hgetimps i hi] at hmin
  · intro i hi
    have hfirst := leastIdx_first
      ((((ws.take (ws.length - 1)).drop 4).drop 1).map (fun w => |w|)) i hi
    rwa [hgetimps _ hjlt, hgetimps i (lt_trans hi hjlt)] at hfirst

/-- C2, witnessed: with the repository's layout (5 auxiliary weights,
feature weights `1` and `2`, intercept last) the least-important feature
is the first one. -/
theorem c2_importance_fixed_layout_witness :
    0 < wFeatures.length ∧ wWeights.length = wFeatures.length + 6 ∧
    (∃ j, j < wFeatures.length ∧
      updateFeatures wFeatures wWeights =
        .ok (wFeatures.eraseIdx j, wFeatures.getD j defaultFeature) ∧
      (∀ i < wFeatures.length, |wWeights.getD (5 + j) 0| ≤ |wWeights.getD (5 + i) 0|) ∧
      (∀ i < j, |wWeights.getD (5 + j) 0| < |wWeights.getD (5 + i) 0|)) :=
  ⟨by decide, by decide, c2_importance_fixed_layout wFeatures wWeights (by decide) (by decide)⟩

/-- `sortDesc` is a permutation of its input. -/
theorem sortDesc_perm (l : List ℚ) : (sortDesc l).Perm l :=
  List.perm_insertionSort _ l

/-- `sortDesc` sorts in descending order. -/
theorem sortDesc_sorted (l : List ℚ) : List.Sorted (· ≥ ·) (sortDesc l) :=
  List.sorted_insertionSort _ l

/-- `indexOf` of a member is in bounds. -/
theorem idxOf_lt_length (l : List ℚ) (d : ℚ) (hd : d ∈ l) : idxOf l d < l.length :=
  List.indexOf_lt_length.mpr hd

/-- Reading back the element at `indexOf` of a member returns it. -/
theorem getD_idxOf (l : List ℚ) (d : ℚ) (hd : d ∈ l) : l.getD (idxOf l d) 0 = d := by
  rw [List.getD_eq_getElem _ _ (idxOf_lt_length l d hd)]
  exact List.getElem_indexOf (idxOf_lt_length l d hd)

/-- C5, counterexample: on the claim's own Scenario B —
`signedDelta = [-2, 0.5, 3, -0.1, 1]`, `k = 3` — the claim says the
result is the three entities at indices `2, 0, 4`; `getWorstPredictions`
has no `k` parameter (it always takes up to 20), so it returns all five
entities `[2, 0, 4, 1, 3]`.  Moreover, on tied residuals (`[3, 3]`) the
`indexOf` lookup returns the first occurrence twice: the entity at
index 0 is listed twice and the entity at index 1 never — against the
claim's "ties broken by original input order and no entity listed
twice". -/
theorem c5_selection_counterexample :
    (getWorstPredictions id cxVideos5 headMLR cxX5 cxY5).map iPrediction.title =
      ["2", "0", "4", "1", "3"] ∧
    (getWorstPredictions id cxVideos5 headMLR cxX5 cxY5).length = 5 ∧
    (getWorstPredictions id cxVideos2 headMLR [[3], [3]] [0, 0]).map iPrediction.title =
      ["0", "0"] := by
  have h1 : |(1 : ℚ) / 2| = 1 / 2 := abs_of_pos (by norm_num)
  have h2 : |(1 : ℚ) / 10| = 1 / 10 := abs_of_pos (by norm_num)
  refine ⟨?_, ?_, ?_⟩ <;>
    norm_num [h1, h2, getWorstPredictions, cxVideos5, cxVideos2, headMLR, cxX5, cxY5, mkVideo,
      sortDesc, idxOf, List.insertionSort, List.orderedInsert, List.indexOf, List.findIdx,
      List.findIdx.go, Bool.cond_eq_if]

/-- C5, amended: selection has no `k` parameter — it returns
`min 20 n` report rows, in strictly decreasing order of
`abs(signedDelta)` when the absolute residuals are pairwise distinct; in
that case each reported index is in bounds, no entity is listed twice,
and the reported residuals are exactly the `min 20 n` largest.  (With
ties, `indexOf` repeats the first member of a tied group and later
members are dropped, so the distinctness hypothesis is necessary.) -/
theorem c5_worst_selection_amended (expQ : ℚ → ℚ) (videos : List iFeaturedVideo)
    (mlr : MLRModel) (X : List (List ℚ)) (Y : List ℚ)
    (hnd : (List.zipWith (fun p y => |p - y|) (X.map mlr.predict) Y).Nodup) :
    ∃ idxs : List ℕ,
      getWorstPredictions expQ videos mlr X Y = idxs.map (fun idx =>
        { title := (videos.getD idx defaultVideo).title
          actual := expQ (Y.getD idx 0) - 1
          predicted := expQ ((X.map mlr.predict).getD idx 0) - 1
          diff := |expQ ((X.map mlr.predict).getD idx 0) - expQ (Y.getD idx 0)|
          delta := (X.map mlr.predict).getD idx 0 - Y.getD idx 0 }) ∧
      idxs.Nodup ∧
      idxs.length = min 20 (List.zipWith (fun p y => |p - y|) (X.map mlr.predict) Y).length ∧
      idxs.map (fun i => (List.zipWith (fun p y => |p - y|) (X.map mlr.predict) Y).getD i 0) =
        (sortDesc (List.zipWith (fun p y => |p - y|) (X.map mlr.predict) Y)).take 20 ∧
      List.Sorted (· ≥ ·) (idxs.map (fun i =>
        (List.zipWith (fun p y => |p - y|) (X.map mlr.predict) Y).getD i 0)) ∧
      (∀ i ∈ idxs, i < (List.zipWith (fun p y => |p - y|) (X.map mlr.predict) Y).length) := by
  refine ⟨((sortDesc (List.zipWith (fun p y => |p - y|) (X.map mlr.predict) Y)).take 20).map
    (fun d => idxOf (List.zipWith (fun p y => |p - y|) (X.map mlr.predict) Y) d),
    rfl, ?_, ?_, ?_, ?_, ?_⟩
  all_goals
    have hmem : ∀ d ∈ (sortDesc (List.zipWith (fun p y => |p - y|) (X.map mlr.predict) Y)).take 20,
        d ∈ List.zipWith (fun p y => |p - y|) (X.map mlr.predict) Y :=
      fun d hd => (sortDesc_perm _).subset ((List.take_sublist _ _).subset hd)
  all_goals
    have hvals : (((sortDesc (List.zipWith (fun p y => |p - y|) (X.map mlr.predict) Y)).take
        20).map (fun d => idxOf (List.zipWith (fun p y => |p - y|) (X.map mlr.predict) Y) d)).map
          (fun i => (List.zipWith (fun p y => |p - y|) (X.map mlr.predict) Y).getD i 0) =
        (sortDesc (List.zipWith (fun p y => |p - y|) (X.map mlr.predict) Y)).take 20 := by
      rw [List.map_map]
      calc ((sortDesc (List.zipWith (fun p y => |p - y|) (X.map mlr.predict) Y)).take 20).map
            ((fun i => (List.zipWith (fun p y => |p - y|) (X.map mlr.predict) Y).getD i 0) ∘
              (fun d => idxOf (List.zipWith (fun p y => |p - y|) (X.map mlr.predict) Y) d)) =
          ((sortDesc (List.zipWith (fun p y => |p - y|) (X.map mlr.predict) Y)).take 20).map id :=
            List.map_congr_left (fun d hd => getD_idxOf _ d (hmem d hd))
        _ = _ := List.map_id _
  · -- Nodup
    have hsortnd : (sortDesc (List.zipWith (fun p y => |p - y|) (X.map mlr.predict) Y)).Nodup :=
      ((sortDesc_perm _).nodup_iff).mpr hnd
    have htakend := (List.take_sublist 20 _).nodup hsortnd
    refine htakend.map_on ?_
    intro x hx y hy heq
    have h1 := getD_idxOf _ x (hmem x hx)
    have h2 := getD_idxOf _ y (hmem y hy)
    rw [heq] at h1
    rw [h1] at h2
    exact h2
  · -- length
    rw [List.length_map, List.length_take, (sortDesc_perm _).length_eq]
  · -- the reported residuals are the top ones
    exact hvals
  · -- decreasing order
    rw [hvals]
    exact List.Pairwise.sublist (List.take_sublist _ _) (sortDesc_sorted _)
  · -- bounds
    intro i hi
    obtain ⟨d, hd, hdi⟩ := List.mem_map.mp hi
    rw [← hdi]
    exact idxOf_lt_length _ d (hmem d hd)

/-- C5, witnessed on Scenario B's residuals (pairwise distinct): the
selection facts hold there. -/
theorem c5_worst_selection_amended_witness :
    (List.zipWith (fun p y => |p - y|) (cxX5.map headMLR.predict) cxY5).Nodup ∧
    (∃ idxs : List ℕ,
      getWorstPredictions id cxVideos5 headMLR cxX5 cxY5 = idxs.map (fun idx =>
        { title := (cxVideos5.getD idx defaultVideo).title
          actual := id (cxY5.getD idx 0) - 1
          predicted := id ((cxX5.map headMLR.predict).getD idx 0) - 1
          diff := |id ((cxX5.map headMLR.predict).getD idx 0) - id (cxY5.getD idx 0)|
          delta := (cxX5.map headMLR.predict).getD idx 0 - cxY5.getD idx 0 }) ∧
      idxs.Nodup ∧
      idxs.length = min 20 (List.zipWith (fun p y => |p - y|) (cxX5.map headMLR.predict) cxY5).length ∧
      idxs.map (fun i => (List.zipWith (fun p y => |p - y|) (cxX5.map headMLR.predict) cxY5).getD i 0) =
        (sortDesc (List.zipWith (fun p y => |p - y|) (cxX5.map headMLR.predict) cxY5)).take 20 ∧
      List.Sorted (· ≥ ·) (idxs.map (fun i =>
        (List.zipWith (fun p y => |p - y|) (cxX5.map headMLR.predict) cxY5).getD i 0)) ∧
      (∀ i ∈ idxs, i < (List.zipWith (fun p y => |p - y|) (cxX5.map headMLR.predict) cxY5).length)) := by
  have hnd : (List.zipWith (fun p y => |p - y|) (cxX5.map headMLR.predict) cxY5).Nodup := by
    have h1 : |(1 : ℚ) / 2| = 1 / 2 := abs_of_pos (by norm_num)
    have h2 : |(1 : ℚ) / 10| = 1 / 10 := abs_of_pos (by norm_num)
    norm_num [h1, h2, headMLR, cxX5, cxY5]
  exact ⟨hnd, c5_worst_selection_amended id cxVideos5 headMLR cxX5 cxY5 hnd⟩

/-- A full batch that yields no valid rankings leaves the loop state
exactly as it was: no progress, no failure counted. -/
theorem rankStep_stall (normalize : String → String) (batchSize : ℕ)
    (videoTitles : List String) (s : RankState)
    (hrun : s.rankings.length < videoTitles.length)
    (hfull : batchSize ≤ (unrankedOf videoTitles s.rankings).length) (hbs : 0 < batchSize) :
    rankStep normalize batchSize videoTitles [] s = .running s := by
  simp only [rankStep]
  rw [if_neg (by omega), if_neg (by omega), if_neg (by omega)]
  simp

/-- A partial batch beyond the retry budget throws. -/
theorem rankStep_throw (normalize : String → String) (batchSize : ℕ)
    (videoTitles : List String) (reply : List iRanking) (s : RankState)
    (hrun : s.rankings.length < videoTitles.length)
    (h0 : (unrankedOf videoTitles s.rankings).length ≠ 0)
    (hlt : (unrankedOf videoTitles s.rankings).length < batchSize)
    (hf : MAX_TRIES ≤ s.failures) :
    rankStep normalize batchSize videoTitles reply s = .thrown := by
  simp only [rankStep]
  rw [if_neg (by omega), if_neg h0, if_pos hlt, if_pos hf]

/-- C7, counterexample: with a full batch of 20 videos (non-Ollama,
two features, so `batchSize = 20`) and a scorer whose replies never
match, one pass of the `while` body returns the state it was given —
nothing is scored and the retry counter is untouched — and iterating 50
such passes still leaves the loop running in its initial state: the
retry budget never engages, so the loop does not terminate. -/
theorem c7_nontermination_counterexample :
    rankStep id (batchSizeOf false 2) cxTitles20 [] { rankings := [], failures := 0 } =
      .running { rankings := [], failures := 0 } ∧
    rankIter id (batchSizeOf false 2) cxTitles20 (fun _ => []) 50 =
      .running { rankings := [], failures := 0 } := by decide

/-- C7, amended: the retry budget only bounds passes whose unranked
remainder is *smaller* than the batch size (three recorded failures then
throw); a pass holding at least a full unranked batch counts no failure,
and when its reply contributes nothing it leaves the state unchanged —
so with collaborator replies that never match, the loop stays in its
initial state forever instead of terminating or throwing. -/
theorem c7_retry_budget_amended (normalize : String → String) (batchSize : ℕ)
    (videoTitles : List String) (reply : List iRanking) (s : RankState) (n : ℕ)
    (hbs : 0 < batchSize) :
    (s.rankings.length < videoTitles.length →
      batchSize ≤ (unrankedOf videoTitles s.rankings).length →
      rankStep normalize batchSize videoTitles [] s = .running s) ∧
    (s.rankings.length < videoTitles.length →
      (unrankedOf videoTitles s.rankings).length ≠ 0 →
      (unrankedOf videoTitles s.rankings).length < batchSize →
      MAX_TRIES ≤ s.failures →
      rankStep normalize batchSize videoTitles reply s = .thrown) ∧
    (batchSize ≤ videoTitles.length →
      rankIter normalize batchSize videoTitles (fun _ => []) n =
        .running { rankings := [], failures := 0 }) := by
  refine ⟨fun h1 h2 => rankStep_stall normalize batchSize videoTitles s h1 h2 hbs,
    fun h1 h2 h3 h4 => rankStep_throw normalize batchSize videoTitles reply s h1 h2 h3 h4, ?_⟩
  intro hlen
  induction n with
  | zero => rfl
  | succ n ih =>
    simp only [rankIter, ih]
    have hur : unrankedOf videoTitles [] = videoTitles := by
      simp [unrankedOf]
    apply rankStep_stall
    · simpa using lt_of_lt_of_le hbs hlen
    · rw [hur]
      exact hlen
    · exact hbs

/-- C7, witnessed: the stall pass and the throw pass, on the concrete
20-video batch. -/
theorem c7_retry_budget_amended_witness :
    0 < 20 ∧
    rankIter id 20 cxTitles20 (fun _ => []) 3 = .running { rankings := [], failures := 0 } :=
  ⟨by decide,
    (c7_retry_budget_amended id 20 cxTitles20 [] { rankings := [], failures := 0 } 3
      (by decide)).2.2 (by decide)⟩

/-- C8, counterexample: with a proposer that returns a feature named
`b` — colliding with the active feature `b` — the Controller does not
detect the collision: `reflexionStep` completes normally (`.ok`) and the
candidate feature set it installs carries the duplicate name twice. -/
theorem c8_no_duplicate_detection_counterexample :
    (reflexionStep wOraclesDup wState.features wState.featuredVideos
        wState.failedFeatures).toOption.map (fun r => r.features.map iFeature.name) =
      some ["b", "b"] ∧
    (reflexionStep wOraclesDup wState.features wState.featuredVideos
        wState.failedFeatures).toOption.map (fun r => r.bestFeatures.map iFeature.name) =
      some ["b"] := by decide

/-- C8, amended: the Controller performs no duplicate-name check — for
every proposer reply, colliding or not, a completing step builds the
candidate set as `bestFeatures ++ [newFeature]`, and an accepted
candidate becomes the active set verbatim; name uniqueness rests
entirely on the proposer honouring its contract. -/
theorem c8_collision_installed_amended (o : Oracles) (s : RState) (r : StepResult)
    (hstep : reflexionStep o s.features s.featuredVideos s.failedFeatures = .ok r) :
    r.features = r.bestFeatures ++ [r.newFeature] ∧
    (r.newModelResults.averageLogError < r.previousModelResults.averageLogError →
      (runIteration o s).features = r.bestFeatures ++ [r.newFeature]) := by
  obtain ⟨-, -, -, hfeat, -, -, -, -, -, -, -, -⟩ :=
    reflexionStep_ok_anatomy o s.features s.featuredVideos s.failedFeatures r hstep
  refine ⟨hfeat, ?_⟩
  intro hc
  have hrun : runIteration o s =
      (if r.newModelResults.averageLogError < r.previousModelResults.averageLogError then
        { features := r.features
          failedFeatures := s.failedFeatures ++ r.failedFeature.toList
          featuredVideos := r.videos }
      else
        { features := s.features
          failedFeatures := s.failedFeatures ++ [r.newFeature]
          featuredVideos := r.videos }) := by
    unfold runIteration
    rw [hstep]
  rw [hrun, if_pos hc]
  exact hfeat

/-- C8, witnessed on the colliding concrete step. -/
theorem c8_collision_installed_amended_witness :
    reflexionStep wOraclesDup wState.features wState.featuredVideos wState.failedFeatures =
      .ok wStepResultDup ∧
    wStepResultDup.features = wStepResultDup.bestFeatures ++ [wStepResultDup.newFeature] :=
  ⟨rfl, (c8_collision_installed_amended wOraclesDup wState wStepResultDup rfl).1⟩
